import Mathlib

/-!
Shallow embedding of the market-data aggregation layer of
stock-portfolio-genius: the provider rate-limit state machine
(backend/services/market_data/base.py), the Finnhub provider
(backend/services/market_data/finnhub.py), the fallback/caching manager
(backend/services/market_data/manager.py) and the price collector's
persistence step (backend/services/price_collector.py).

Time is modelled as whole seconds (Nat) since an arbitrary epoch;
`datetime.date()` becomes the day index `t / 86400`.  Python floats are
modelled as rationals.  Python dictionaries are modelled as association
lists whose insert replaces the existing binding for the key.
-/

set_option maxRecDepth 4000

namespace StockPortfolio

/-- Seconds per day, for `datetime.date()` comparisons. -/
def secsPerDay : Nat := 86400

/-- The calendar date of a timestamp, as a day index (`datetime.date()`). -/
def dateOf (t : Nat) : Nat := t / secsPerDay

/-- Python `str.upper()` (tickers are ASCII), by mapping each character. -/
def pyToUpper (s : String) : String := ⟨s.data.map Char.toUpper⟩

/-- Python `str.startswith(pre)`. -/
def pyStartsWith (s pre : String) : Bool := pre.data.isPrefixOf s.data

/-- `StockQuote` dataclass of base.py (floats as rationals, datetime as Nat). -/
structure StockQuote where
  ticker : String
  current_price : Rat
  previous_close : Rat
  open_price : Rat
  high : Rat
  low : Rat
  volume : Int
  change : Rat
  change_percent : Rat
  timestamp : Nat
  source : String
deriving DecidableEq, Repr

/-- `StockInfo` dataclass of base.py. -/
structure StockInfo where
  ticker : String
  name : String
  sector : Option String
  industry : Option String
  market_cap : Option Rat
  pe_ratio : Option Rat
  eps : Option Rat
  dividend_yield : Option Rat
  fifty_two_week_high : Option Rat
  fifty_two_week_low : Option Rat
  avg_volume : Option Int
  description : Option String
deriving DecidableEq, Repr

/-- `OHLCV` dataclass of base.py. -/
structure OHLCV where
  timestamp : Nat
  «open» : Rat
  high : Rat
  low : Rat
  close : Rat
  volume : Int
deriving DecidableEq, Repr

/-- `ProviderStatus` dataclass of base.py. -/
structure ProviderStatus where
  name : String
  is_available : Bool
  requests_remaining : Option Nat
  reset_time : Option Nat
  last_error : Option String
deriving DecidableEq, Repr

/-- The mutable counters a `MarketDataProvider` keeps (base.py `__init__`). -/
structure ProviderState where
  request_count : Nat
  daily_request_count : Nat
  last_reset : Nat
  last_error : Option String
deriving DecidableEq, Repr

/-- The class-level rate caps of a provider (`rate_limit`, `daily_limit`);
`none` is Python `None` (no cap). -/
structure ProviderLimits where
  rate_limit : Option Nat
  daily_limit : Option Nat
deriving DecidableEq, Repr

/-- Yahoo: no caps (yahoo.py). -/
def yahooLimits : ProviderLimits := ⟨none, none⟩

/-- Finnhub: 60 requests/minute, no daily cap (finnhub.py). -/
def finnhubLimits : ProviderLimits := ⟨some 60, none⟩

/-- Tiingo: no per-minute cap, 1000 requests/day (tiingo.py). -/
def tiingoLimits : ProviderLimits := ⟨none, some 1000⟩

/-- Alpha Vantage: 5 requests/minute, 25 requests/day (alphavantage.py). -/
def alphavantageLimits : ProviderLimits := ⟨some 5, some 25⟩

/-- Python truthiness of an optional integer cap (`if self.rate_limit:`). -/
def capTruthy : Option Nat → Bool
  | some n => n != 0
  | none => false

/-- `MarketDataProvider._check_rate_limit` (base.py lines 128-150): resets the
per-minute counter when strictly more than 60 seconds have passed since
`last_reset` (also moving `last_reset` to `now`), then resets the daily
counter when the current date is strictly later than the date of the (possibly
just-updated) `last_reset`, then refuses when either truthy cap is reached.
Returns the verdict and the updated counters. -/
def check_rate_limit (lim : ProviderLimits) (st : ProviderState) (now : Nat) :
    Bool × ProviderState :=
  let st1 := if 60 < now - st.last_reset then
      { st with request_count := 0, last_reset := now } else st
  let st2 := if dateOf st1.last_reset < dateOf now then
      { st1 with daily_request_count := 0 } else st1
  let rateBlocked := capTruthy lim.rate_limit &&
      decide (lim.rate_limit.getD 0 ≤ st2.request_count)
  let dailyBlocked := capTruthy lim.daily_limit &&
      decide (lim.daily_limit.getD 0 ≤ st2.daily_request_count)
  (!(rateBlocked || dailyBlocked), st2)

/-- `MarketDataProvider._increment_request` (base.py lines 152-155). -/
def increment_request (st : ProviderState) : ProviderState :=
  { st with request_count := st.request_count + 1,
            daily_request_count := st.daily_request_count + 1 }

/-- `MarketDataProvider._get_remaining_requests` (base.py lines 115-119):
`max(0, rate_limit - request_count)` when `rate_limit` is truthy, else
`None`.  Nat subtraction already truncates at 0. -/
def get_remaining_requests (lim : ProviderLimits) (st : ProviderState) :
    Option Nat :=
  if capTruthy lim.rate_limit then some (lim.rate_limit.getD 0 - st.request_count)
  else none

/-- `MarketDataProvider._get_reset_time` (base.py lines 121-126). -/
def get_reset_time (lim : ProviderLimits) (st : ProviderState) : Option Nat :=
  if capTruthy lim.rate_limit then some (st.last_reset + 60) else none

/-- `MarketDataProvider.get_status` (base.py lines 105-113). -/
def get_status (name : String) (avail : Bool) (lim : ProviderLimits)
    (st : ProviderState) : ProviderStatus :=
  ⟨name, avail, get_remaining_requests lim st, get_reset_time lim st,
   st.last_error⟩

/-- The fields of the Finnhub `/quote` JSON payload used by
`FinnhubProvider.get_quote`; absent keys are `none` (`data.get(...)`). -/
structure FinnhubQuoteData where
  c : Option Rat
  pc : Option Rat
  d : Option Rat
  dp : Option Rat
  o : Option Rat
  h : Option Rat
  l : Option Rat
deriving DecidableEq, Repr

/-- What the network returns for one Finnhub quote request: an exception
(HTTP error, bad JSON, ...), an empty/falsy payload, or a payload. -/
abbrev FinnhubNet := Except String (Option FinnhubQuoteData)

/-- `FinnhubProvider.get_quote` (finnhub.py lines 32-72) with the network
call explicit.  Result: the quote (or `None`), the provider counters after
the call, and whether a network request was actually issued. -/
def finnhub_get_quote (api_key : Option String) (st : ProviderState)
    (ticker : String) (now : Nat) (net : FinnhubNet) :
    Option StockQuote × ProviderState × Bool :=
  match api_key with
  | none => (none, st, false)
  | some _ =>
    let res := check_rate_limit finnhubLimits st now
    let st1 := res.2
    if !res.1 then (none, st1, false)
    else
      match net with
      | .error e => (none, { st1 with last_error := some e }, true)
      | .ok none => (none, st1, true)
      | .ok (some d) =>
        if d.c.getD 1 = 0 ∧ d.c.isSome then (none, st1, true)
        else
          let st2 := increment_request st1
          let cp := d.c.getD 0
          (some { ticker := pyToUpper ticker
                  current_price := cp
                  previous_close := d.pc.getD cp
                  open_price := d.o.getD 0
                  high := d.h.getD 0
                  low := d.l.getD 0
                  volume := 0
                  change := d.d.getD 0
                  change_percent := d.dp.getD 0
                  timestamp := now
                  source := "finnhub" }, st2, true)

/-! ## Manager (manager.py) -/

/-- A Python dict keyed by strings, as an association list whose insert
replaces the binding for the key. -/
abbrev AList (α : Type) := List (String × α)

/-- Dict lookup `m.get(k)`: the value bound to key `k`, if any. -/
def alist_get {α : Type} : AList α → String → Option α
  | [], _ => none
  | kv :: rest, k => if kv.1 == k then some kv.2 else alist_get rest k

/-- Dict deletion `m.pop(k, None)`. -/
def alist_erase {α : Type} (m : AList α) (k : String) : AList α :=
  m.filter (fun kv => kv.1 != k)

/-- Dict assignment `m[k] = v` (replaces any existing binding). -/
def alist_insert {α : Type} (m : AList α) (k : String) (v : α) : AList α :=
  (k, v) :: alist_erase m k

/-- `CacheEntry` dataclass of manager.py. -/
structure CacheEntry (α : Type) where
  data : α
  timestamp : Nat
  source : String
deriving DecidableEq, Repr

/-- `MarketDataManager.QUOTE_CACHE_TTL` (60 s). -/
def QUOTE_CACHE_TTL : Nat := 60

/-- `MarketDataManager.INFO_CACHE_TTL` (3600 s). -/
def INFO_CACHE_TTL : Nat := 3600

/-- `MarketDataManager.HISTORICAL_CACHE_TTL` (300 s). -/
def HISTORICAL_CACHE_TTL : Nat := 300

/-- The three caches of `MarketDataManager`. -/
structure ManagerState where
  quote_cache : AList (CacheEntry StockQuote)
  info_cache : AList (CacheEntry StockInfo)
  historical_cache : AList (CacheEntry (List OHLCV))
deriving DecidableEq, Repr

/-- The empty caches a fresh manager starts with. -/
def emptyManager : ManagerState := ⟨[], [], []⟩

/-- `MarketDataManager._is_cache_valid` (manager.py lines 73-78): an absent
entry is invalid; otherwise the entry is valid iff its age is strictly
less than the TTL. -/
def is_cache_valid {α : Type} (entry : Option (CacheEntry α))
    (ttl_seconds : Nat) (now : Nat) : Bool :=
  match entry with
  | none => false
  | some c => decide (now - c.timestamp < ttl_seconds)

/-- A provider as the manager sees it for quotes: its name, its availability
flag, and its response to `get_quote(t)` — `.error` models a raised
exception, `.ok none` an absent result. -/
structure MProv where
  name : String
  is_available : Bool
  respond : String → Except String (Option StockQuote)

/-- The provider loop of `MarketDataManager.get_quote` (manager.py lines
108-128): skip unavailable providers, swallow exceptions, cache and return
the first truthy quote.  Also returns the list of provider names actually
invoked, in call order. -/
def tryQuoteProviders : List MProv → String → Nat →
    AList (CacheEntry StockQuote) →
    Option StockQuote × AList (CacheEntry StockQuote) × List String
  | [], _, _, qc => (none, qc, [])
  | p :: rest, t, now, qc =>
    if !p.is_available then tryQuoteProviders rest t now qc
    else
      match p.respond t with
      | .ok (some q) => (some q, alist_insert qc t ⟨q, now, p.name⟩, [p.name])
      | .ok none =>
        let (r, qc2, log) := tryQuoteProviders rest t now qc
        (r, qc2, p.name :: log)
      | .error _ =>
        let (r, qc2, log) := tryQuoteProviders rest t now qc
        (r, qc2, p.name :: log)

/-- The sort key of `providers.sort(key=lambda p: 0 if p.name != "yahoo"
else 1)` (manager.py line 106). -/
def rtKey (p : MProv) : Nat := if p.name == "yahoo" then 1 else 0

/-- Stable insertion: `p` (which comes from earlier in the original list
than everything already inserted) is placed before the first element whose
key is at least its own, so elements with equal keys keep their original
relative order, as Python's stable `list.sort` does. -/
def insertByKey (p : MProv) : List MProv → List MProv
  | [] => [p]
  | q :: rest => if rtKey p ≤ rtKey q then p :: q :: rest
                 else q :: insertByKey p rest

/-- Python's stable `list.sort(key=rtKey)` as a stable insertion sort. -/
def stableSortByKey : List MProv → List MProv
  | [] => []
  | p :: rest => insertByKey p (stableSortByKey rest)

/-- `MarketDataManager.get_quote` (manager.py lines 80-128).  Returns the
quote (or `None`), the manager state after the call, and the names of the
providers invoked in call order. -/
def manager_get_quote (ps : List MProv) (st : ManagerState) (ticker : String)
    (prefer_realtime : Bool) (now : Nat) :
    Option StockQuote × ManagerState × List String :=
  let t := pyToUpper ticker
  if !prefer_realtime && is_cache_valid (alist_get st.quote_cache t)
      QUOTE_CACHE_TTL now then
    match alist_get st.quote_cache t with
    | some e => (some e.data, st, [])
    | none => (none, st, [])
  else
    let ps2 := if prefer_realtime then stableSortByKey ps else ps
    let (r, qc, log) := tryQuoteProviders ps2 t now st.quote_cache
    (r, { st with quote_cache := qc }, log)

/-- `MarketDataManager.clear_cache` (manager.py lines 245-258): with a
ticker, pop its uppercased key from the quote and info caches and drop
every historical key that *starts with* the uppercased ticker; with no
ticker, clear all three caches. -/
def clear_cache (st : ManagerState) (ticker : Option String) : ManagerState :=
  match ticker with
  | some tk =>
    let u := pyToUpper tk
    { quote_cache := alist_erase st.quote_cache u
      info_cache := alist_erase st.info_cache u
      historical_cache :=
        st.historical_cache.filter (fun kv => !(pyStartsWith kv.1 u)) }
  | none => ⟨[], [], []⟩

/-- A provider as the manager sees it for historical bars. -/
structure HProv where
  name : String
  is_available : Bool
  respond : String → String → String → Except String (List OHLCV)

/-- The provider loop of `MarketDataManager.get_historical` (manager.py
lines 184-203): `if data:` — an empty list is falsy, so an empty response
falls through to the next provider. -/
def tryHistProviders : List HProv → String → String → String → Nat →
    AList (CacheEntry (List OHLCV)) →
    List OHLCV × AList (CacheEntry (List OHLCV)) × List String
  | [], _, _, _, _, hc => ([], hc, [])
  | p :: rest, t, per, itv, now, hc =>
    if !p.is_available then tryHistProviders rest t per itv now hc
    else
      match p.respond t per itv with
      | .ok [] =>
        let (r, hc2, log) := tryHistProviders rest t per itv now hc
        (r, hc2, p.name :: log)
      | .ok (b :: bs) =>
        (b :: bs, alist_insert hc (t ++ "_" ++ per ++ "_" ++ itv)
          ⟨b :: bs, now, p.name⟩, [p.name])
      | .error _ =>
        let (r, hc2, log) := tryHistProviders rest t per itv now hc
        (r, hc2, p.name :: log)

/-- `MarketDataManager.get_historical` (manager.py lines 165-203). -/
def manager_get_historical (ps : List HProv) (st : ManagerState)
    (ticker period interval : String) (now : Nat) :
    List OHLCV × ManagerState × List String :=
  let t := pyToUpper ticker
  let key := t ++ "_" ++ period ++ "_" ++ interval
  if is_cache_valid (alist_get st.historical_cache key)
      HISTORICAL_CACHE_TTL now then
    match alist_get st.historical_cache key with
    | some e => (e.data, st, [])
    | none => ([], st, [])
  else
    let (r, hc, log) := tryHistProviders ps t period interval now
      st.historical_cache
    (r, { st with historical_cache := hc }, log)

/-! ## Price collector (price_collector.py) -/

/-- A persisted `PriceHistory` row (models/database.py lines 175-193);
nullable columns are `Option`. -/
structure PriceRecord where
  ticker : String
  date : Nat
  open_col : Option Rat
  high : Option Rat
  low : Option Rat
  close : Rat
  volume : Option Rat
  source : String
deriving DecidableEq, Repr

/-- A Python value, for dynamic attribute access on a `StockQuote`. -/
inductive PyVal
  | pstr (s : String)
  | pnum (q : Rat)
  | pint (n : Int)
  | ptime (t : Nat)
deriving DecidableEq, Repr

/-- Dynamic attribute lookup on the `StockQuote` dataclass: exactly its
declared fields resolve; any other attribute name raises `AttributeError`
in Python, modelled as `none`. -/
def quoteGetAttr (q : StockQuote) (a : String) : Option PyVal :=
  if a = "ticker" then some (.pstr q.ticker)
  else if a = "current_price" then some (.pnum q.current_price)
  else if a = "previous_close" then some (.pnum q.previous_close)
  else if a = "open_price" then some (.pnum q.open_price)
  else if a = "high" then some (.pnum q.high)
  else if a = "low" then some (.pnum q.low)
  else if a = "volume" then some (.pint q.volume)
  else if a = "change" then some (.pnum q.change)
  else if a = "change_percent" then some (.pnum q.change_percent)
  else if a = "timestamp" then some (.ptime q.timestamp)
  else if a = "source" then some (.pstr q.source)
  else none

/-- `quote.a` as a fallible computation: absent attribute is the raised
`AttributeError`. -/
def pyAttr (q : StockQuote) (a : String) : Except String PyVal :=
  match quoteGetAttr q a with
  | some v => .ok v
  | none => .error ("AttributeError: " ++ a)

/-- Numeric view of a `PyVal` (the collector only does arithmetic on
numeric attributes). -/
def asRat : PyVal → Rat
  | .pnum x => x
  | .pint n => (n : Rat)
  | _ => 0

/-- String view of a `PyVal`. -/
def asStr : PyVal → String
  | .pstr s => s
  | _ => ""

/-- Python `x or y` on a possibly-`None`, possibly-zero float column. -/
def pyOrOpt (o : Option Rat) (d : Rat) : Rat :=
  match o with
  | some x => if x = 0 then d else x
  | none => d

/-- Python `x or y` on a float. -/
def pyOrRat (x d : Rat) : Rat := if x = 0 then d else x

/-- The body of `PriceCollector._save_price` (price_collector.py lines
109-147) up to its `except` handler: look for today's row for the ticker;
if present, update close/high/low/volume/source from the quote, else insert
a new row — every `quote.X` dereference goes through `pyAttr`, in the order
the Python statements (and keyword arguments) evaluate them. -/
def save_price_attempt (db : List PriceRecord) (ticker : String)
    (q : StockQuote) (today : Nat) : Except String (List PriceRecord) :=
  match db.find? (fun r => r.ticker == ticker && r.date == today) with
  | some r =>
    -- update branch: `existing.close = quote.price` is the first statement,
    -- so `quote.price` is the first attribute dereferenced; `quote.high`,
    -- `quote.low`, `quote.volume`, `quote.source` are declared fields and
    -- resolve directly.
    match pyAttr q "price" with
    | .error m => .error m
    | .ok vprice =>
      let p := asRat vprice
      let newHigh := max (pyOrOpt r.high p) (pyOrRat q.high p)
      let newLow := min (pyOrOpt r.low p) (pyOrRat q.low p)
      let newVol := if (q.volume : Rat) = 0 then r.volume
                    else some ((q.volume : Rat))
      .ok (db.map (fun r2 =>
        if r2.ticker == ticker && r2.date == today then
          { r2 with close := p, high := some newHigh, low := some newLow,
                    volume := newVol, source := q.source }
        else r2))
  | none =>
    -- insert branch: the constructor call evaluates its keyword arguments
    -- in order, so `quote.open` is dereferenced first, then `quote.price`
    -- for the `close` column.
    match pyAttr q "open" with
    | .error m => .error m
    | .ok vopen =>
      match pyAttr q "price" with
      | .error m => .error m
      | .ok vprice =>
        .ok (db ++ [{ ticker := ticker, date := today,
                      open_col := some (asRat vopen), high := some q.high,
                      low := some q.low, close := asRat vprice,
                      volume := some ((q.volume : Rat)),
                      source := q.source }])

/-- `PriceCollector._save_price` with its `except` handler: on any raised
error the transaction is rolled back and the database is left unchanged. -/
def save_price (db : List PriceRecord) (ticker : String) (q : StockQuote)
    (today : Nat) : List PriceRecord :=
  match save_price_attempt db ticker q today with
  | .ok db2 => db2
  | .error _ => db

/-! ## Concrete fixtures used by scenario theorems and witnesses -/

/-- The quote of the spec's two-provider scenario: `{price:150.00,
prevClose:148.00, ...}` for "ABC", served by provider P2. -/
def q150 : StockQuote :=
  { ticker := "ABC", current_price := 150, previous_close := 148,
    open_price := 149, high := 151, low := 147, volume := 1000,
    change := 2, change_percent := 1, timestamp := 0, source := "P2" }

/-- Scenario provider P1: priority 1, always returns absent. -/
def P1 : MProv := ⟨"P1", true, fun _ => .ok none⟩

/-- Scenario provider P2: priority 2, succeeds for "ABC". -/
def P2 : MProv :=
  ⟨"P2", true, fun t => if t = "ABC" then .ok (some q150) else .ok none⟩

/-- A manager whose quote cache holds q150 for "ABC", fetched at time 0. -/
def st0 : ManagerState := ⟨[("ABC", ⟨q150, 0, "P2"⟩)], [], []⟩

/-- A sample historical bar. -/
def bar0 : OHLCV := ⟨0, 10, 12, 9, 11, 500⟩

/-- A historical provider that always answers with the empty sequence. -/
def H1 : HProv := ⟨"yahoo", true, fun _ _ _ => .ok []⟩

/-- A historical provider that always raises. -/
def H2 : HProv := ⟨"finnhub", true, fun _ _ _ => .error "HTTP 500"⟩

/-! ## Helper lemmas -/

theorem alist_get_filter_of_pos {α : Type} (p : String → Bool) (m : AList α)
    (k : String) (hp : p k = true) :
    alist_get (m.filter (fun kv => p kv.1)) k = alist_get m k := by
  induction m with
  | nil => rfl
  | cons kv rest ih =>
    by_cases hk : (kv.1 == k) = true
    · have hk2 : kv.1 = k := eq_of_beq hk
      have : p kv.1 = true := by rw [hk2]; exact hp
      simp [List.filter_cons, this, alist_get, hk]
    · by_cases hpk : p kv.1 = true
      · simp [List.filter_cons, hpk, alist_get, hk, ih]
      · simp [List.filter_cons, hpk, alist_get, hk, ih]

theorem alist_get_filter_of_neg {α : Type} (p : String → Bool) (m : AList α)
    (k : String) (hp : p k = false) :
    alist_get (m.filter (fun kv => p kv.1)) k = none := by
  induction m with
  | nil => rfl
  | cons kv rest ih =>
    by_cases hpk : p kv.1 = true
    · have hk : (kv.1 == k) = false := by
        cases h2 : kv.1 == k
        · rfl
        · exfalso
          have he : kv.1 = k := eq_of_beq h2
          rw [he, hp] at hpk
          exact absurd hpk (by decide)
      simp [List.filter_cons, hpk, alist_get, hk, ih]
    · simp [List.filter_cons, hpk, ih]

theorem alist_get_insert_self {α : Type} (m : AList α) (k : String) (v : α) :
    alist_get (alist_insert m k v) k = some v := by
  simp [alist_insert, alist_get]

theorem cache_invalid_mono {α : Type} (e : Option (CacheEntry α))
    (ttl now now2 : Nat) (h : is_cache_valid e ttl now = false)
    (hle : now ≤ now2) : is_cache_valid e ttl now2 = false := by
  cases e with
  | none => rfl
  | some c =>
    simp only [is_cache_valid, decide_eq_false_iff_not, Nat.not_lt] at h ⊢
    exact le_trans h (Nat.sub_le_sub_right hle _)

theorem tryQuote_all_fail (ps : List MProv) (t : String) (now : Nat)
    (qc : AList (CacheEntry StockQuote))
    (h : ∀ p ∈ ps, p.respond t = .ok none ∨ ∃ e, p.respond t = .error e) :
    tryQuoteProviders ps t now qc =
      (none, qc, (ps.filter (fun p => p.is_available)).map (fun p => p.name)) := by
  induction ps with
  | nil => rfl
  | cons p rest ih =>
    have hrest := fun p2 h2 => h p2 (List.mem_cons_of_mem _ h2)
    have hp := h p (List.mem_cons_self _ _)
    by_cases hav : p.is_available = true
    · rcases hp with h1 | ⟨e, h1⟩ <;>
        simp [tryQuoteProviders, hav, h1, ih hrest, List.filter_cons]
    · simp [tryQuoteProviders, hav, ih hrest, List.filter_cons]

theorem tryQuote_cache_indep (ps : List MProv) (t : String) (now : Nat)
    (qc qc2 : AList (CacheEntry StockQuote)) :
    (tryQuoteProviders ps t now qc).1 = (tryQuoteProviders ps t now qc2).1 ∧
    (tryQuoteProviders ps t now qc).2.2 = (tryQuoteProviders ps t now qc2).2.2 := by
  induction ps with
  | nil => exact ⟨rfl, rfl⟩
  | cons p rest ih =>
    by_cases hav : p.is_available = true
    · rcases hresp : p.respond t with e | o
      · simp [tryQuoteProviders, hav, hresp]
        exact ⟨ih.1, ih.2⟩
      · cases o with
        | none =>
          simp [tryQuoteProviders, hav, hresp]
          exact ⟨ih.1, ih.2⟩
        | some q => simp [tryQuoteProviders, hav, hresp]
    · simp [tryQuoteProviders, hav]
      exact ih

theorem tryQuote_log_prefix (ps : List MProv) (t : String) (now : Nat)
    (qc : AList (CacheEntry StockQuote)) :
    ∃ rest, (ps.filter (fun p => p.is_available)).map (fun p => p.name) =
      (tryQuoteProviders ps t now qc).2.2 ++ rest := by
  induction ps with
  | nil => exact ⟨[], rfl⟩
  | cons p rest ih =>
    by_cases hav : p.is_available = true
    · rcases hresp : p.respond t with e | o
      · obtain ⟨r2, hr2⟩ := ih
        refine ⟨r2, ?_⟩
        simp [tryQuoteProviders, hav, hresp, List.filter_cons, hr2]
      · cases o with
        | none =>
          obtain ⟨r2, hr2⟩ := ih
          refine ⟨r2, ?_⟩
          simp [tryQuoteProviders, hav, hresp, List.filter_cons, hr2]
        | some q =>
          refine ⟨(rest.filter (fun p => p.is_available)).map (fun p => p.name), ?_⟩
          simp [tryQuoteProviders, hav, hresp, List.filter_cons]
    · obtain ⟨r2, hr2⟩ := ih
      refine ⟨r2, ?_⟩
      simp [tryQuoteProviders, hav, List.filter_cons, hr2]

theorem tryQuote_success_cached (ps : List MProv) (t : String) (now : Nat)
    (qc : AList (CacheEntry StockQuote)) (q : StockQuote)
    (h : (tryQuoteProviders ps t now qc).1 = some q) :
    ∃ src, alist_get (tryQuoteProviders ps t now qc).2.1 t =
      some ⟨q, now, src⟩ := by
  induction ps with
  | nil => simp [tryQuoteProviders] at h
  | cons p rest ih =>
    by_cases hav : p.is_available = true
    · rcases hresp : p.respond t with e | o
      · simp [tryQuoteProviders, hav, hresp] at h ⊢
        exact ih h
      · cases o with
        | none =>
          simp [tryQuoteProviders, hav, hresp] at h ⊢
          exact ih h
        | some q2 =>
          simp [tryQuoteProviders, hav, hresp] at h ⊢
          subst h
          exact ⟨p.name, alist_get_insert_self _ _ _⟩
    · simp [tryQuoteProviders, hav] at h ⊢
      exact ih h

theorem tryQuote_log_nonempty (ps : List MProv) (t : String) (now : Nat)
    (qc : AList (CacheEntry StockQuote))
    (h : ps.filter (fun p => p.is_available) ≠ []) :
    (tryQuoteProviders ps t now qc).2.2 ≠ [] := by
  induction ps with
  | nil => exact absurd rfl h
  | cons p rest ih =>
    by_cases hav : p.is_available = true
    · rcases hresp : p.respond t with e | o
      · simp [tryQuoteProviders, hav, hresp]
      · cases o with
        | none => simp [tryQuoteProviders, hav, hresp]
        | some q => simp [tryQuoteProviders, hav, hresp]
    · simp only [List.filter_cons, hav] at h
      simp only [Bool.false_eq_true, if_false] at h
      simp [tryQuoteProviders, hav]
      exact ih h

/-- The order `providers.sort(key=lambda p: 0 if p.name != "yahoo" else 1)`
produces: the non-yahoo providers in their original order, then the yahoo
ones in their original order. -/
def realtimeOrder (ps : List MProv) : List MProv :=
  ps.filter (fun p => p.name != "yahoo") ++ ps.filter (fun p => p.name == "yahoo")

theorem insertByKey_key0 (p : MProv) (l : List MProv) (hp : rtKey p = 0) :
    insertByKey p l = p :: l := by
  cases l with
  | nil => rfl
  | cons q rest => simp [insertByKey, hp]

theorem insertByKey_append_key1 (p : MProv) (A B : List MProv)
    (hp : rtKey p = 1) (hA : ∀ a ∈ A, rtKey a = 0)
    (hB : ∀ b ∈ B, rtKey b = 1) :
    insertByKey p (A ++ B) = A ++ p :: B := by
  induction A with
  | nil =>
    cases B with
    | nil => rfl
    | cons b B2 =>
      have hb := hB b (List.mem_cons_self _ _)
      simp [insertByKey, hp, hb]
  | cons a A2 ihA =>
    have ha := hA a (List.mem_cons_self _ _)
    simp only [List.cons_append, insertByKey, hp, ha]
    rw [if_neg (by omega)]
    show a :: insertByKey p (A2 ++ B) = a :: (A2 ++ p :: B)
    rw [ihA (fun x hx => hA x (List.mem_cons_of_mem _ hx))]

theorem stableSort_eq_realtimeOrder (ps : List MProv) :
    stableSortByKey ps = realtimeOrder ps := by
  induction ps with
  | nil => rfl
  | cons p rest ih =>
    cases hy : p.name == "yahoo"
    · have hne : ¬(p.name = "yahoo") := by
        intro h2
        rw [h2] at hy
        exact absurd hy (by decide)
      have hp : rtKey p = 0 := by simp [rtKey, hy]
      rw [stableSortByKey, ih, realtimeOrder, insertByKey_key0 _ _ hp]
      simp [realtimeOrder, List.filter_cons, hy, hne]
    · have he : p.name = "yahoo" := eq_of_beq hy
      have hp : rtKey p = 1 := by simp [rtKey, hy]
      rw [stableSortByKey, ih, realtimeOrder,
        insertByKey_append_key1 p _ _ hp ?_ ?_]
      · simp [realtimeOrder, List.filter_cons, hy, he]
      · intro a ha
        have h2 := List.of_mem_filter ha
        have h3 : (a.name == "yahoo") = false := by
          cases h4 : a.name == "yahoo"
          · rfl
          · rw [bne, h4] at h2; exact absurd h2 (by simp)
        simp [rtKey, h3]
      · intro b hb
        have h2 := List.of_mem_filter hb
        simp [rtKey, h2]

theorem tryHist_all_empty (ps : List HProv) (t per itv : String) (now : Nat)
    (hc : AList (CacheEntry (List OHLCV)))
    (h : ∀ p ∈ ps, p.respond t per itv = .ok [] ∨
      ∃ e, p.respond t per itv = .error e) :
    tryHistProviders ps t per itv now hc =
      ([], hc, (ps.filter (fun p => p.is_available)).map (fun p => p.name)) := by
  induction ps with
  | nil => rfl
  | cons p rest ih =>
    have hrest := fun p2 h2 => h p2 (List.mem_cons_of_mem _ h2)
    have hp := h p (List.mem_cons_self _ _)
    by_cases hav : p.is_available = true
    · rcases hp with h1 | ⟨e, h1⟩ <;>
        simp [tryHistProviders, hav, h1, ih hrest, List.filter_cons]
    · simp [tryHistProviders, hav, ih hrest, List.filter_cons]

/-! ## Claim theorems -/

/-- C1: with `preferRealtime=false`, a quote-cache entry for the uppercased
ticker strictly younger than the 60-second TTL is returned as-is — the
manager state is untouched and no provider is invoked (empty call log) —
while an entry aged exactly the TTL is already invalid
(validity is `now - timestamp < TTL`). -/
theorem quote_cache_hit_under_ttl (ps : List MProv) (st : ManagerState)
    (ticker : String) (now : Nat) (e : CacheEntry StockQuote)
    (he : alist_get st.quote_cache (pyToUpper ticker) = some e) :
    (now - e.timestamp < QUOTE_CACHE_TTL →
      manager_get_quote ps st ticker false now = (some e.data, st, [])) ∧
    (now - e.timestamp = QUOTE_CACHE_TTL →
      is_cache_valid (alist_get st.quote_cache (pyToUpper ticker))
        QUOTE_CACHE_TTL now = false) := by
  constructor
  · intro h
    have h60 : now - e.timestamp < 60 := h
    simp [manager_get_quote, he, is_cache_valid, QUOTE_CACHE_TTL, h60]
  · intro h
    simp [is_cache_valid, he, QUOTE_CACHE_TTL, h]

/-- Witness for C1: a 30-second-old entry is served from the cache with no
provider call; the same entry at exactly 60 seconds is expired. -/
theorem quote_cache_hit_under_ttl_w :
    manager_get_quote [] st0 "abc" false 30 =
      (some ((⟨q150, 0, "P2"⟩ : CacheEntry StockQuote).data), st0,
        ([] : List String)) ∧
    is_cache_valid (alist_get st0.quote_cache (pyToUpper "abc"))
      QUOTE_CACHE_TTL 60 = false :=
  ⟨(quote_cache_hit_under_ttl [] st0 "abc" 30 ⟨q150, 0, "P2"⟩ (by decide)).1
    (by decide),
   (quote_cache_hit_under_ttl [] st0 "abc" 60 ⟨q150, 0, "P2"⟩ (by decide)).2
    (by decide)⟩

/-- C2 (code bug): `_save_price` dereferences `quote.price` (update branch)
and `quote.open` (insert branch), but `StockQuote` declares `current_price`
and `open_price`, so every save raises `AttributeError`, is caught by the
`except` handler, rolls back, and leaves the price-history table unchanged —
no run of CollectPrices ever persists or updates a record. -/
theorem save_price_never_persists (db : List PriceRecord) (ticker : String)
    (q : StockQuote) (today : Nat) :
    save_price db ticker q today = db ∧
    quoteGetAttr q "price" = none ∧
    quoteGetAttr q "open" = none ∧
    ∃ msg, save_price_attempt db ticker q today = Except.error msg := by
  have hp : pyAttr q "price" = Except.error "AttributeError: price" := rfl
  have ho : pyAttr q "open" = Except.error "AttributeError: open" := rfl
  refine ⟨?_, rfl, rfl, ?_⟩
  · unfold save_price
    cases hf : db.find? (fun r => r.ticker == ticker && r.date == today) with
    | some r => simp [save_price_attempt, hf, hp]
    | none => simp [save_price_attempt, hf, ho]
  · cases hf : db.find? (fun r => r.ticker == ticker && r.date == today) with
    | some r =>
      exact ⟨"AttributeError: price", by simp [save_price_attempt, hf, hp]⟩
    | none =>
      exact ⟨"AttributeError: open", by simp [save_price_attempt, hf, ho]⟩

/-- C3: when every provider answers absent or raises for the uppercased
ticker and the quote cache has no live entry, `get_quote` returns `None`
(no exception escapes — raises are absorbed by the loop), the manager state
is exactly the one before the call (in particular no absent value is
cached), and every available provider was tried in order. -/
theorem all_providers_absent_returns_none (ps : List MProv)
    (st : ManagerState) (ticker : String) (now : Nat)
    (hall : ∀ p ∈ ps, p.respond (pyToUpper ticker) = .ok none ∨
      ∃ e, p.respond (pyToUpper ticker) = .error e)
    (hmiss : is_cache_valid (alist_get st.quote_cache (pyToUpper ticker))
      QUOTE_CACHE_TTL now = false) :
    manager_get_quote ps st ticker false now =
      (none, st,
        (ps.filter (fun p => p.is_available)).map (fun p => p.name)) := by
  simp [manager_get_quote, hmiss,
    tryQuote_all_fail ps (pyToUpper ticker) now st.quote_cache hall]

/-- Witness for C3: one always-absent provider, empty caches. -/
theorem all_providers_absent_returns_none_w :
    manager_get_quote [P1] emptyManager "xyz" false 5 =
      (none, emptyManager, ["P1"]) := by
  have h := all_providers_absent_returns_none [P1] emptyManager "xyz" 5
    (by
      intro p hp
      rw [List.mem_singleton] at hp
      subst hp
      exact Or.inl rfl)
    (by decide)
  exact h

/-- C6 (code bug): whenever a call arrives more than 60 seconds after
`last_reset`, the per-minute reset moves `last_reset` to `now` *before* the
daily check compares dates, so the daily counter is never cleared in that
case, even when the calendar date has advanced — at the concrete failing
input (Tiingo, daily counter 1000 filled yesterday, call today) the daily
cap therefore still refuses the call although the date has advanced. -/
theorem daily_count_not_reset_after_minute_reset (lim : ProviderLimits)
    (st : ProviderState) (now : Nat) (h : 60 < now - st.last_reset) :
    ((check_rate_limit lim st now).2).daily_request_count =
      st.daily_request_count ∧
    ((check_rate_limit lim st now).2).last_reset = now ∧
    (check_rate_limit tiingoLimits ⟨0, 1000, 0, none⟩ 90000).1 = false ∧
    dateOf 0 < dateOf 90000 := by
  refine ⟨?_, ?_, by decide, by decide⟩
  · simp [check_rate_limit, h]
  · simp [check_rate_limit, h]

/-- Witness for C6: a call one day plus 90000-86400 seconds after the
counters were last reset leaves the daily counter at 1000. -/
theorem daily_count_not_reset_after_minute_reset_w :
    (60 : Nat) < 90000 - 0 ∧
    ((check_rate_limit tiingoLimits ⟨0, 1000, 0, none⟩ 90000).2).daily_request_count
      = 1000 :=
  ⟨by decide,
   (daily_count_not_reset_after_minute_reset tiingoLimits ⟨0, 1000, 0, none⟩
     90000 (by decide)).1⟩

/-- C9 counterexample: Alpha Vantage with its daily cap exhausted (25 of 25)
is declined by `_check_rate_limit`, yet `get_status` reports
`requests_remaining = 5` (its per-minute headroom), not 0; Tiingo declined
on its daily cap reports `requests_remaining = None`, not 0. -/
theorem daily_cap_decline_status_cex :
    (check_rate_limit alphavantageLimits ⟨0, 25, 0, none⟩ 30).1 = false ∧
    (get_status "alphavantage" true alphavantageLimits
      ⟨0, 25, 0, none⟩).requests_remaining = some 5 ∧
    (check_rate_limit tiingoLimits ⟨0, 1000, 0, none⟩ 30).1 = false ∧
    (get_status "tiingo" true tiingoLimits
      ⟨0, 1000, 0, none⟩).requests_remaining = none := by
  decide

/-- C9 amended: when a provider *with a truthy per-minute cap* is declined
because that cap is reached, the status snapshot computed from the same
counters reports `requests_remaining = 0`; declines caused purely by the
per-day cap are not reflected in `requests_remaining`. -/
theorem minute_cap_decline_zero_remaining (lim : ProviderLimits)
    (st : ProviderState) (now : Nat) (r : Nat)
    (hr : lim.rate_limit = some r) (h0 : r ≠ 0)
    (hc : r ≤ ((check_rate_limit lim st now).2).request_count) :
    (check_rate_limit lim st now).1 = false ∧
    get_remaining_requests lim ((check_rate_limit lim st now).2) = some 0 := by
  constructor
  · have hfst : (check_rate_limit lim st now).1 =
        !((capTruthy lim.rate_limit && decide (lim.rate_limit.getD 0 ≤
            ((check_rate_limit lim st now).2).request_count)) ||
          (capTruthy lim.daily_limit && decide (lim.daily_limit.getD 0 ≤
            ((check_rate_limit lim st now).2).daily_request_count))) := rfl
    rw [hfst, hr]
    simp [capTruthy, h0, hc]
  · unfold get_remaining_requests
    rw [hr]
    simp [capTruthy, h0, Nat.sub_eq_zero_of_le hc]

/-- Witness for C9's amended claim: Finnhub at 60/60 within the window. -/
theorem minute_cap_decline_zero_remaining_w :
    (check_rate_limit finnhubLimits ⟨60, 0, 0, none⟩ 30).1 = false ∧
    get_remaining_requests finnhubLimits
      ((check_rate_limit finnhubLimits ⟨60, 0, 0, none⟩ 30).2) = some 0 :=
  minute_cap_decline_zero_remaining finnhubLimits ⟨60, 0, 0, none⟩ 30 60 rfl
    (by decide) (by decide)

/-- C4: with P1 (priority 1, always absent) before P2 (priority 2,
succeeding for "ABC"), `get_quote("abc")` tries P1 then P2 (call log
["P1","P2"]), returns the quote with ticker "ABC" (the uppercased input),
price 150 and source "P2", caches it under key "ABC" with source "P2" and
timestamp now, and a repeat call 30 s later is served from the cache with
the state unchanged and no provider invoked. -/
theorem two_provider_fallback_scenario :
    (manager_get_quote [P1, P2] emptyManager "abc" false 0).1 = some q150 ∧
    q150.ticker = pyToUpper "abc" ∧
    q150.source = P2.name ∧
    q150.current_price = 150 ∧
    (manager_get_quote [P1, P2] emptyManager "abc" false 0).2.2 =
      ["P1", "P2"] ∧
    alist_get
      (manager_get_quote [P1, P2] emptyManager "abc" false 0).2.1.quote_cache
      (pyToUpper "abc") = some ⟨q150, 0, "P2"⟩ ∧
    manager_get_quote [P1, P2]
      (manager_get_quote [P1, P2] emptyManager "abc" false 0).2.1 "abc"
      false 30 =
      (some q150,
       (manager_get_quote [P1, P2] emptyManager "abc" false 0).2.1, []) := by
  decide

/-- C5: Finnhub (per-minute cap 60, no daily cap) with exactly 60 counted
calls in the current window refuses the next call locally — no network
request is issued, `None` is returned, `last_error` and `request_count` are
untouched — and once strictly more than 60 seconds have elapsed since the
last reset the window resets and the network is contacted again. -/
theorem finnhub_minute_cap_refusal (key : String) (st : ProviderState)
    (ticker : String) (now : Nat) (net : FinnhubNet)
    (hcount : st.request_count = 60) :
    (now - st.last_reset ≤ 60 →
      finnhub_get_quote (some key) st ticker now net =
        (none, (check_rate_limit finnhubLimits st now).2, false) ∧
      ((check_rate_limit finnhubLimits st now).2).last_error =
        st.last_error ∧
      ((check_rate_limit finnhubLimits st now).2).request_count = 60) ∧
    (60 < now - st.last_reset →
      (finnhub_get_quote (some key) st ticker now net).2.2 = true) := by
  constructor
  · intro h
    have hok : (check_rate_limit finnhubLimits st now).1 = false := by
      simp only [check_rate_limit, finnhubLimits]
      rw [if_neg (Nat.not_lt.mpr h)]
      split <;> simp [capTruthy, hcount]
    have hc2 : ((check_rate_limit finnhubLimits st now).2).request_count
        = 60 := by
      simp only [check_rate_limit, finnhubLimits]
      rw [if_neg (Nat.not_lt.mpr h)]
      split <;> simp [hcount]
    have herr : ((check_rate_limit finnhubLimits st now).2).last_error
        = st.last_error := by
      simp only [check_rate_limit, finnhubLimits]
      rw [if_neg (Nat.not_lt.mpr h)]
      split <;> rfl
    exact ⟨by simp [finnhub_get_quote, hok], herr, hc2⟩
  · intro h
    have hok : (check_rate_limit finnhubLimits st now).1 = true := by
      simp only [check_rate_limit, finnhubLimits]
      rw [if_pos h]
      simp [capTruthy]
    rcases net with e | o
    · simp [finnhub_get_quote, hok]
    · cases o with
      | none => simp [finnhub_get_quote, hok]
      | some d =>
        simp only [finnhub_get_quote, hok, Bool.not_true, Bool.false_eq_true,
          if_false]
        split <;> rfl

/-- Witness for C5: a provider at 60/60, 30 s into the window, declines
without touching the network; the same counters 100 s after the reset
let the call through to the network. -/
theorem finnhub_minute_cap_refusal_w :
    finnhub_get_quote (some "k") ⟨60, 0, 0, none⟩ "ab" 30 (Except.ok none) =
      (none, (check_rate_limit finnhubLimits ⟨60, 0, 0, none⟩ 30).2,
        false) ∧
    (finnhub_get_quote (some "k") ⟨60, 0, 0, none⟩ "ab" 100
      (Except.ok none)).2.2 = true :=
  ⟨((finnhub_minute_cap_refusal "k" ⟨60, 0, 0, none⟩ "ab" 30 (Except.ok none)
      rfl).1 (by decide)).1,
   (finnhub_minute_cap_refusal "k" ⟨60, 0, 0, none⟩ "ab" 100 (Except.ok none)
      rfl).2 (by decide)⟩

/-- C10: when every provider answers the empty sequence or raises for the
historical request and the cache has no live entry for the composite key,
`get_historical` falls through each available provider in order (the call
log lists them all), returns the empty sequence, writes nothing to the
cache (the state is exactly the pre-call state), and therefore any
identical later call — in particular one within the TTL — iterates the
providers again. -/
theorem historical_empty_is_failure (ps : List HProv) (st : ManagerState)
    (ticker period interval : String) (now : Nat)
    (hall : ∀ p ∈ ps, p.respond (pyToUpper ticker) period interval = .ok [] ∨
      ∃ e, p.respond (pyToUpper ticker) period interval = .error e)
    (hmiss : is_cache_valid (alist_get st.historical_cache
      (pyToUpper ticker ++ "_" ++ period ++ "_" ++ interval))
      HISTORICAL_CACHE_TTL now = false) :
    ∀ now2, now ≤ now2 →
      manager_get_historical ps st ticker period interval now2 =
        ([], st,
          (ps.filter (fun p => p.is_available)).map (fun p => p.name)) := by
  intro now2 hle
  have hmiss2 := cache_invalid_mono _ _ _ _ hmiss hle
  simp [manager_get_historical, hmiss2,
    tryHist_all_empty ps (pyToUpper ticker) period interval now2
      st.historical_cache hall]

/-- Witness for C10: an empty-answering provider and a raising provider,
empty caches; both the immediate call and one 100 s later (within the
300-second TTL) iterate both providers and return the empty sequence. -/
theorem historical_empty_is_failure_w :
    manager_get_historical [H1, H2] emptyManager "spy" "1y" "1d" 7 =
      ([], emptyManager, ["yahoo", "finnhub"]) ∧
    manager_get_historical [H1, H2] emptyManager "spy" "1y" "1d" 107 =
      ([], emptyManager, ["yahoo", "finnhub"]) := by
  have h := historical_empty_is_failure [H1, H2] emptyManager "spy" "1y" "1d" 7
    (by
      intro p hp
      simp only [List.mem_cons, List.mem_singleton] at hp
      rcases hp with rfl | rfl | h2
      · exact Or.inl rfl
      · exact Or.inr ⟨"HTTP 500", rfl⟩
      · cases h2)
    (by decide)
  exact ⟨h 7 (by decide), h 107 (by decide)⟩

/-- A manager whose historical cache holds entries for the two distinct
tickers "AB" and "ABC" (same period/interval). -/
def stHist : ManagerState :=
  ⟨[], [],
   [("AB_1y_1d", ⟨[], 0, "yahoo"⟩), ("ABC_1y_1d", ⟨[bar0], 0, "yahoo"⟩)]⟩

/-- C8 counterexample: `clear_cache("AB")` matches historical keys by
string prefix, so it also deletes ticker "ABC"'s historical entry — an
entry of a *different* ticker does not remain unchanged. -/
theorem clear_cache_prefix_overreach_cex :
    alist_get stHist.historical_cache "ABC_1y_1d" =
      some ⟨[bar0], 0, "yahoo"⟩ ∧
    alist_get (clear_cache stHist (some "AB")).historical_cache "ABC_1y_1d" =
      none := by
  decide

/-- C8 amended: `clear_cache(T)` removes the quote and info entries keyed
exactly `uppercase(T)` (all other keys unchanged) and removes precisely the
historical entries whose key *starts with* `uppercase(T)` — which can
include another ticker whose symbol extends T — leaving non-matching keys
unchanged; `clear_cache()` with no ticker empties all three caches; and
after clearing "ABC" from the C4 scenario state, a new `get_quote("abc")`
re-invokes P1 then P2 exactly once each. -/
theorem clear_cache_behavior (st : ManagerState) (ticker : String) :
    alist_get (clear_cache st (some ticker)).quote_cache
      (pyToUpper ticker) = none ∧
    alist_get (clear_cache st (some ticker)).info_cache
      (pyToUpper ticker) = none ∧
    (∀ k, k ≠ pyToUpper ticker →
      alist_get (clear_cache st (some ticker)).quote_cache k =
        alist_get st.quote_cache k) ∧
    (∀ k, k ≠ pyToUpper ticker →
      alist_get (clear_cache st (some ticker)).info_cache k =
        alist_get st.info_cache k) ∧
    (∀ k, pyStartsWith k (pyToUpper ticker) = true →
      alist_get (clear_cache st (some ticker)).historical_cache k = none) ∧
    (∀ k, pyStartsWith k (pyToUpper ticker) = false →
      alist_get (clear_cache st (some ticker)).historical_cache k =
        alist_get st.historical_cache k) ∧
    clear_cache st none = emptyManager ∧
    (manager_get_quote [P1, P2]
      (clear_cache (manager_get_quote [P1, P2] emptyManager "abc" false 0).2.1
        (some "ABC")) "abc" false 30).2.2 = ["P1", "P2"] := by
  refine ⟨?_, ?_, ?_, ?_, ?_, ?_, rfl, by decide⟩
  · exact alist_get_filter_of_neg (fun s => s != pyToUpper ticker) _ _
      (by simp)
  · exact alist_get_filter_of_neg (fun s => s != pyToUpper ticker) _ _
      (by simp)
  · intro k hk
    exact alist_get_filter_of_pos (fun s => s != pyToUpper ticker) _ _
      (by simp [hk])
  · intro k hk
    exact alist_get_filter_of_pos (fun s => s != pyToUpper ticker) _ _
      (by simp [hk])
  · intro k hk
    exact alist_get_filter_of_neg
      (fun s => !(pyStartsWith s (pyToUpper ticker))) _ _ (by simp [hk])
  · intro k hk
    exact alist_get_filter_of_pos
      (fun s => !(pyStartsWith s (pyToUpper ticker))) _ _ (by simp [hk])

/-- Witness for C8's amended claim at concrete states. -/
theorem clear_cache_behavior_w :
    alist_get (clear_cache st0 (some "abc")).quote_cache
      (pyToUpper "abc") = none ∧
    alist_get (clear_cache st0 (some "abc")).quote_cache "XYZ" =
      alist_get st0.quote_cache "XYZ" ∧
    alist_get (clear_cache stHist (some "AB")).historical_cache "AB_1y_1d" =
      none ∧
    alist_get (clear_cache stHist (some "AB")).historical_cache "XY_1y_1d" =
      alist_get stHist.historical_cache "XY_1y_1d" :=
  ⟨(clear_cache_behavior st0 "abc").1,
   (clear_cache_behavior st0 "abc").2.2.1 "XYZ" (by decide),
   (clear_cache_behavior stHist "AB").2.2.2.2.1 "AB_1y_1d" (by decide),
   (clear_cache_behavior stHist "AB").2.2.2.2.2.1 "XY_1y_1d" (by decide)⟩

/-- C7: with `preferRealtime=true` the quote cache is not read — the
returned quote and the provider call log do not depend on the quote cache
at all — providers are iterated in the stable reorder that keeps all
non-yahoo providers first in their original order and moves the yahoo
(15-minute-delayed) provider last, unavailable providers are skipped (the
call log is a prefix of the available providers of that reorder, and
nonempty whenever an available provider exists), and a winning quote is
still written to the cache under the uppercased ticker with the call
time. -/
theorem prefer_realtime_behavior (ps : List MProv) (st : ManagerState)
    (ticker : String) (now : Nat) :
    (∀ qc2,
      (manager_get_quote ps { st with quote_cache := qc2 } ticker true now).1 =
        (manager_get_quote ps st ticker true now).1 ∧
      (manager_get_quote ps { st with quote_cache := qc2 }
          ticker true now).2.2 =
        (manager_get_quote ps st ticker true now).2.2) ∧
    stableSortByKey ps = realtimeOrder ps ∧
    (∃ rest,
      ((realtimeOrder ps).filter (fun p => p.is_available)).map
        (fun p => p.name) =
      (manager_get_quote ps st ticker true now).2.2 ++ rest) ∧
    ((realtimeOrder ps).filter (fun p => p.is_available) ≠ [] →
      (manager_get_quote ps st ticker true now).2.2 ≠ []) ∧
    (∀ q, (manager_get_quote ps st ticker true now).1 = some q →
      ∃ src,
        alist_get (manager_get_quote ps st ticker true now).2.1.quote_cache
          (pyToUpper ticker) = some ⟨q, now, src⟩) := by
  rcases htq : tryQuoteProviders (stableSortByKey ps) (pyToUpper ticker) now
    st.quote_cache with ⟨r, qc, log⟩
  have hm : manager_get_quote ps st ticker true now =
      (r, { st with quote_cache := qc }, log) := by
    simp [manager_get_quote, htq]
  refine ⟨?_, stableSort_eq_realtimeOrder ps, ?_, ?_, ?_⟩
  · intro qc2
    rcases htq2 : tryQuoteProviders (stableSortByKey ps) (pyToUpper ticker)
      now qc2 with ⟨r2, qcb, log2⟩
    have hm2 : manager_get_quote ps { st with quote_cache := qc2 }
        ticker true now =
        (r2, { st with quote_cache := qcb }, log2) := by
      simp [manager_get_quote, htq2]
    have hind := tryQuote_cache_indep (stableSortByKey ps) (pyToUpper ticker)
      now qc2 st.quote_cache
    rw [htq, htq2] at hind
    rw [hm, hm2]
    exact hind
  · obtain ⟨rest2, hr⟩ := tryQuote_log_prefix (stableSortByKey ps)
      (pyToUpper ticker) now st.quote_cache
    rw [htq] at hr
    rw [hm, ← stableSort_eq_realtimeOrder]
    exact ⟨rest2, hr⟩
  · intro hne
    have h2 := tryQuote_log_nonempty (stableSortByKey ps) (pyToUpper ticker)
      now st.quote_cache (by rw [stableSort_eq_realtimeOrder]; exact hne)
    rw [htq] at h2
    rw [hm]
    exact h2
  · intro q hq
    rw [hm] at hq
    have h2 := tryQuote_success_cached (stableSortByKey ps) (pyToUpper ticker)
      now st.quote_cache q (by rw [htq]; exact hq)
    rw [htq] at h2
    rw [hm]
    exact h2

/-- Witness for C7: with a valid cache entry for "ABC" present, a
realtime-preferred call still invokes the providers, gets q150 from P2,
and rewrites the cache entry with the call time 5. -/
theorem prefer_realtime_behavior_w :
    (manager_get_quote [P1, P2] st0 "abc" true 5).1 = some q150 ∧
    (manager_get_quote [P1, P2] st0 "abc" true 5).2.2 ≠ [] ∧
    ∃ src,
      alist_get (manager_get_quote [P1, P2] st0 "abc" true 5).2.1.quote_cache
        (pyToUpper "abc") = some ⟨q150, 5, src⟩ :=
  ⟨by decide,
   (prefer_realtime_behavior [P1, P2] st0 "abc" 5).2.2.2.1
     (by simp [realtimeOrder, P1, P2]),
   (prefer_realtime_behavior [P1, P2] st0 "abc" 5).2.2.2.2 q150 (by decide)⟩

end StockPortfolio
